import Mathlib

/-!
# Verification of the CursorData SDK record-decoding and query-composition core

A shallow embedding, in Lean 4, of the Python code of the CursorData SDK
(`src/cursordata/utils.py`, `cursordiskkv_models.py`, `models.py`, `query.py`,
`collections.py`), together with theorems settling the specification claims
about that code.

Modelling conventions:
* Python `dict`s are insertion-ordered association lists `List (String × α)`;
  `dictInsert` replaces in place on an existing key and appends otherwise,
  exactly like Python dict assignment.
* JSON values are the inductive `Json` (numbers restricted to integers, which
  covers every input appearing in the claims).
* Python exceptions are modelled with `Except String`; a caught exception is
  an `.error` value that the caller pattern-matches on.
* `re.sub`/`re.match` calls are embedded by executable functions implementing
  the exact scanning/backtracking semantics of the concrete regexes the code
  builds (leftmost non-overlapping matches, greedy quantifiers, start-anchored
  matching).
* Python `str.lower` is embedded for the ASCII range (`lowerChar`), the range
  over which every claim quantifies.
-/

/-! ## Ordered dictionaries (Python `dict` as insertion-ordered assoc list) -/

/-- Lookup of a key in an insertion-ordered dictionary (Python `d[k]` / `d.get(k)`). -/
def dictGet? {α : Type} (d : List (String × α)) (k : String) : Option α :=
  match d with
  | [] => none
  | (k', v) :: rest => if k' = k then some v else dictGet? rest k

/-- Key membership (Python `k in d`). -/
def dictContains {α : Type} (d : List (String × α)) (k : String) : Bool :=
  (dictGet? d k).isSome

/-- Python `d[k] = v`: replace in place if the key exists, append otherwise. -/
def dictInsert {α : Type} (d : List (String × α)) (k : String) (v : α) :
    List (String × α) :=
  match d with
  | [] => [(k, v)]
  | (k', v') :: rest =>
    if k' = k then (k', v) :: rest else (k', v') :: dictInsert rest k v

/-- Python `d.pop(k)`: remove the entry with the given key. -/
def dictErase {α : Type} (d : List (String × α)) (k : String) :
    List (String × α) :=
  match d with
  | [] => []
  | (k', v') :: rest =>
    if k' = k then rest else (k', v') :: dictErase rest k

/-- The keys of a dictionary, in insertion order. -/
def dictKeys {α : Type} (d : List (String × α)) : List String := d.map Prod.fst

/-! ## JSON values -/

/-- Decoded JSON values (numbers restricted to integers, which covers all the
claims' inputs). Objects are insertion-ordered key/value lists. -/
inductive Json : Type where
  | null : Json
  | bool : Bool → Json
  | num : Int → Json
  | str : String → Json
  | arr : List Json → Json
  | obj : List (String × Json) → Json

/-! ## `camel_to_snake` (utils.py lines 82–99)

Python:
```
s1 = re.sub("(.)([A-Z][a-z]+)", r"\1_\2", name)
return re.sub("([a-z0-9])([A-Z])", r"\1_\2", s1).lower()
```
`subA` embeds the first substitution and `subB` the second, both with
`re.sub`'s leftmost non-overlapping scanning and greedy `[a-z]+`. -/

/-- ASCII upper-case letter, the regex class `[A-Z]`. -/
def isUpperA (c : Char) : Bool := 65 ≤ c.toNat && c.toNat ≤ 90

/-- ASCII lower-case letter, the regex class `[a-z]`. -/
def isLowerA (c : Char) : Bool := 97 ≤ c.toNat && c.toNat ≤ 122

/-- ASCII digit, part of the regex class `[a-z0-9]`. -/
def isDigitA (c : Char) : Bool := 48 ≤ c.toNat && c.toNat ≤ 57

/-- Python `str.lower` on the ASCII range: map `A`–`Z` to `a`–`z`, leave
every other character unchanged. -/
def lowerChar (c : Char) : Char :=
  if isUpperA c then Char.ofNat (c.toNat + 32) else c

theorem dropWhile_length_le (p : Char → Bool) (l : List Char) :
    (l.dropWhile p).length ≤ l.length := by
  induction l with
  | nil => simp
  | cons a l ih =>
    by_cases h : p a
    · rw [List.dropWhile_cons]
      simp [h]
      omega
    · rw [List.dropWhile_cons]
      simp [h]

/-- `re.sub("(.)([A-Z][a-z]+)", r"\1_\2", ·)`: scan left to right for the
leftmost match (any non-newline character, then an upper-case letter followed
by a maximal non-empty run of lower-case letters), insert `_` between the two
groups, and continue after the match. -/
def subA : List Char → List Char
  | [] => []
  | [c] => [c]
  | c :: u :: rest =>
    if c ≠ '\n' && isUpperA u && !(rest.takeWhile isLowerA).isEmpty then
      c :: '_' :: u :: ((rest.takeWhile isLowerA) ++ subA (rest.dropWhile isLowerA))
    else
      c :: subA (u :: rest)
termination_by l => l.length
decreasing_by
  · have := dropWhile_length_le isLowerA rest
    simp only [List.length_cons]
    omega
  · simp [List.length_cons]

/-- `re.sub("([a-z0-9])([A-Z])", r"\1_\2", ·)`: scan left to right, insert `_`
between a lower-case letter or digit and an immediately following upper-case
letter, and continue after the two matched characters. -/
def subB : List Char → List Char
  | [] => []
  | [c] => [c]
  | a :: b :: rest =>
    if (isLowerA a || isDigitA a) && isUpperA b then
      a :: '_' :: b :: subB rest
    else
      a :: subB (b :: rest)

/-- `camel_to_snake` (utils.py 82–99): the two substitutions followed by
`str.lower()`. -/
def camel_to_snake (s : String) : String :=
  String.mk ((subB (subA s.data)).map lowerChar)

/-! ## `auto_map_camel_to_snake` (utils.py lines 119–151) -/

/-- `auto_map_camel_to_snake(data, known_fields)`: translate every key of
`data` to snake case and place it in the `mapped` dictionary.  When
`known_fields` is supplied and truthy (a non-empty dict), keys listed there
use the provided target name (iterated in `known_fields` order) and the
remaining keys are auto-converted in `data` order; otherwise every key is
auto-converted in `data` order.  The `unknown` dictionary is initialised
empty and returned as the second component. -/
def auto_map_camel_to_snake (data : List (String × Json))
    (known_fields : Option (List (String × String))) :
    List (String × Json) × List (String × Json) :=
  let unknown : List (String × Json) := []
  match known_fields with
  | some kf =>
    if kf.isEmpty then
      -- Python `if known_fields:` is false for an empty dict
      (data.foldl (fun m kv => dictInsert m (camel_to_snake kv.1) kv.2) [], unknown)
    else
      let mapped := kf.foldl
        (fun m ks =>
          match dictGet? data ks.1 with
          | some v => dictInsert m ks.2 v
          | none => m) []
      let mapped := data.foldl
        (fun m kv =>
          if dictContains kf kv.1 then m
          else dictInsert m (camel_to_snake kv.1) kv.2) mapped
      (mapped, unknown)
  | none =>
    (data.foldl (fun m kv => dictInsert m (camel_to_snake kv.1) kv.2) [], unknown)

/-! ## Record factories

A Python dataclass constructed as `cls(**kwargs)` (all fields having
defaults) succeeds exactly when every keyword is a declared field; the
constructed record is represented by its keyword dictionary, a failing
construction by `Except.error` (Python `TypeError`). -/

/-- The declared fields of the `BubbleConversation` dataclass
(cursordiskkv_models.py lines 126–217), in declaration order. -/
def bubbleConversationFields : List String :=
  ["_v", "type", "bubble_id", "request_id", "checkpoint_id", "text",
   "rich_text", "created_at", "context", "attached_code_chunks",
   "attached_file_code_chunks_metadata_only", "attached_folders",
   "attached_folders_new", "attached_folders_list_dir_results",
   "attached_human_changes", "human_changes", "cursor_rules",
   "knowledge_items", "docs_references", "web_references",
   "ai_web_search_results", "external_links", "suggested_code_blocks",
   "user_responses_to_suggested_code_blocks", "assistant_suggested_diffs",
   "diffs_since_last_apply", "git_diffs", "file_diff_trajectories",
   "diff_histories", "diffs_for_compressing_files",
   "codebase_context_chunks", "lints", "approximate_lint_errors",
   "multi_file_linter_errors", "terminal_files",
   "existed_previous_terminal_command", "existed_subsequent_terminal_command",
   "interpreter_results", "tool_results", "supported_tools", "commits",
   "pull_requests", "capabilities", "capability_statuses",
   "capability_contexts", "ui_element_picked", "notepads",
   "recent_locations_history", "recently_viewed_files", "project_layouts",
   "relevant_files", "summarized_composers", "edit_trail_contexts",
   "all_thinking_blocks", "context_pieces", "is_agentic", "is_refunded",
   "is_nudge", "is_quick_search_query", "is_plan_execution", "use_web",
   "unified_mode", "edit_tool_supports_search_and_replace", "skip_rendering",
   "token_count", "model_info", "console_logs", "todos", "deleted_files",
   "images", "documentation_selections", "_raw_data"]

/-- `cls(**kwargs)` for a dataclass whose fields all have defaults: succeeds
with the keyword dictionary iff every keyword names a declared field,
otherwise raises `TypeError`. -/
def dataclassInit (fields : List String) (kwargs : List (String × Json)) :
    Except String (List (String × Json)) :=
  if (dictKeys kwargs).all (fields.contains ·) then Except.ok kwargs
  else Except.error "TypeError: unexpected keyword argument"

/-- `BubbleConversation.from_dict` (cursordiskkv_models.py lines 219–261):
auto-map the payload, re-nest `model_name`/`input_tokens`/`output_tokens`
into `model_info`/`token_count`, override `bubble_id` from the key parts,
store `conversation_id` in the raw bag, attach `_raw_data`, and construct
the dataclass. -/
def BubbleConversation.from_dict (data : List (String × Json))
    (bubble_id : Option String) (conversation_id : Option String) :
    Except String (List (String × Json)) :=
  let am := auto_map_camel_to_snake data none
  let kwargs := am.1
  let raw_data := am.2
  -- model_info handling
  let kwargs :=
    if dictContains kwargs "model_name" && !dictContains kwargs "model_info" then
      let mn := (dictGet? kwargs "model_name").getD Json.null
      dictInsert (dictErase kwargs "model_name") "model_info"
        (Json.obj [("modelName", mn)])
    else
      match dictGet? kwargs "model_info" with
      | some (Json.obj mi) =>
        if dictContains mi "model_name" then
          let v := (dictGet? mi "model_name").getD Json.null
          dictInsert kwargs "model_info"
            (Json.obj (dictInsert (dictErase mi "model_name") "modelName" v))
        else kwargs
      | _ => kwargs
  -- token_count handling
  let kwargs :=
    match dictGet? kwargs "token_count" with
    | some (Json.obj _) => kwargs
    | _ => dictInsert kwargs "token_count" (Json.obj [])
  let kwargs :=
    match dictGet? kwargs "input_tokens" with
    | some v =>
      let tc := match dictGet? kwargs "token_count" with
        | some (Json.obj tc) => tc
        | _ => []
      dictInsert (dictErase kwargs "input_tokens") "token_count"
        (Json.obj (dictInsert tc "inputTokens" v))
    | none => kwargs
  let kwargs :=
    match dictGet? kwargs "output_tokens" with
    | some v =>
      let tc := match dictGet? kwargs "token_count" with
        | some (Json.obj tc) => tc
        | _ => []
      dictInsert (dictErase kwargs "output_tokens") "token_count"
        (Json.obj (dictInsert tc "outputTokens" v))
    | none => kwargs
  -- override with IDs provided from key parsing (`if bubble_id:` is truthy
  -- only for a non-empty string)
  let kwargs :=
    match bubble_id with
    | some b => if b ≠ "" then dictInsert kwargs "bubble_id" (Json.str b) else kwargs
    | none => kwargs
  let raw_data :=
    match conversation_id with
    | some c => if c ≠ "" then dictInsert raw_data "conversation_id" (Json.str c)
                else raw_data
    | none => raw_data
  let kwargs := dictInsert kwargs "_raw_data" (Json.obj raw_data)
  dataclassInit bubbleConversationFields kwargs

/-- The declared fields of the `Checkpoint` dataclass
(cursordiskkv_models.py lines 383–390). -/
def checkpointFields : List String :=
  ["files", "non_existent_files", "newly_created_folders",
   "active_inline_diffs", "inline_diff_newly_created_resources", "_raw_data"]

/-- `Checkpoint.from_dict` (cursordiskkv_models.py lines 392–397): auto-map
the payload, attach `_raw_data`, construct the dataclass. -/
def Checkpoint.from_dict (data : List (String × Json)) :
    Except String (List (String × Json)) :=
  let am := auto_map_camel_to_snake data none
  dataclassInit checkpointFields (dictInsert am.1 "_raw_data" (Json.obj am.2))

/-- The `AICodeTrackingEntry` record (models.py lines 46–58): a mandatory
content hash and a metadata dictionary. -/
structure AICodeTrackingEntry : Type where
  hash : Json
  metadata : Json

/-- `AICodeTrackingEntry.from_dict` (models.py lines 80–83):
`cls(hash=data["hash"], metadata=data.get("metadata", {}))` — raises
`KeyError` when `"hash"` is absent, defaults `metadata` to `{}`. -/
def AICodeTrackingEntry.from_dict (data : List (String × Json)) :
    Except String AICodeTrackingEntry :=
  match dictGet? data "hash" with
  | none => Except.error "KeyError: hash"
  | some h =>
    Except.ok ⟨h, (dictGet? data "metadata").getD (Json.obj [])⟩

/-! ## `parse_key_pattern` (utils.py lines 34–79)

The Python code builds a regex from the pattern: the text before the first
`{` becomes an escaped literal, each `{name}` placeholder becomes
`(?P<name>[^:]+)` (or `(?P<name>.*)` for the last placeholder part), the text
after each `}` becomes an escaped literal, and a part with no `}` is skipped.
The regex is applied with `re.match`, i.e. anchored at the start of the key
only. `Piece` is the alphabet of such regexes and `pmatch` implements
Python's backtracking matcher for them (greedy quantifiers, longest
alternative first; trailing unmatched input allowed). -/

/-- One piece of a regex built by `parse_key_pattern`: an escaped literal,
a `(?P<name>[^:]+)` group, or a `(?P<name>.*)` group. -/
inductive Piece : Type where
  | lit : List Char → Piece
  | noncolon : String → Piece
  | star : String → Piece
deriving DecidableEq, Repr

/-- The candidate lengths `m, m-1, …, lo` a greedy quantifier tries, longest
first. -/
def descRange (m lo : Nat) : List Nat :=
  (List.range (m + 1 - lo)).map (fun j => m - j)

/-- Backtracking matcher for a piece list against an input, anchored at the
start but allowing trailing input (Python `re.match`).  Returns the group
assignments (in group order) on success.  Greedy groups try the longest
candidate first: the maximal run of non-colon characters for `[^:]+`
(at least one; a negated class matches newlines), and the maximal run of
non-newline characters for `.*` (at least zero; without `re.DOTALL` the
dot does not match `'\n'`). -/
def pmatch : List Piece → List Char → Option (List (String × List Char))
  | [], _ => some []
  | Piece.lit s :: ps, input =>
    if s.isPrefixOf input then pmatch ps (input.drop s.length) else none
  | Piece.noncolon n :: ps, input =>
    (descRange (input.takeWhile (· ≠ ':')).length 1).findSome? fun k =>
      (pmatch ps (input.drop k)).map (fun g => (n, input.take k) :: g)
  | Piece.star n :: ps, input =>
    (descRange (input.takeWhile (· ≠ '\n')).length 0).findSome? fun k =>
      (pmatch ps (input.drop k)).map (fun g => (n, input.take k) :: g)

/-- Break a character list at the first `}`. -/
def breakAtBrace : List Char → Option (List Char × List Char)
  | [] => none
  | c :: rest =>
    if c = '}' then some ([], rest)
    else (breakAtBrace rest).map (fun ab => (c :: ab.1, ab.2))

/-- Python `pattern.split("{")` on the character level (the separator is the
single character `{`). -/
def splitOnBrace : List Char → List (List Char)
  | [] => [[]]
  | c :: rest =>
    let r := splitOnBrace rest
    if c = '\x7b' then [] :: r
    else
      match r with
      | [] => [[c]]
      | h :: t => (c :: h) :: t

/-- The parts of a pattern, Python `parts = pattern.split("{")`. -/
def patternParts (pattern : String) : List (List Char) := splitOnBrace pattern.data

/-- Translate the parts after the first `{` into regex pieces: each part
`name}rest` yields a placeholder group — `.*` when the part is the last one,
`[^:]+` otherwise — followed by the literal `rest` when non-empty; a part
with no `}` yields nothing. -/
def buildGo : List (List Char) → List Piece
  | [] => []
  | part :: more =>
    match breakAtBrace part with
    | none => buildGo more
    | some (name, after) =>
      let ph := if more.isEmpty then Piece.star (String.mk name)
                else Piece.noncolon (String.mk name)
      if after.isEmpty then ph :: buildGo more
      else ph :: Piece.lit after :: buildGo more

/-- The regex (as a piece list) that `parse_key_pattern` builds for a pattern
containing at least one `{`. -/
def piecesOf (pattern : String) : List Piece :=
  match patternParts pattern with
  | [] => []
  | p0 :: rest => Piece.lit p0 :: buildGo rest

/-- `parse_key_pattern(key, pattern)` (utils.py 34–79): with no placeholder
the pattern must equal the key exactly (empty parts mapping); otherwise the
built regex is matched against the key with `re.match` and the group
dictionary is returned, or `None` when the match fails. -/
def parse_key_pattern (key pattern : String) : Option (List (String × String)) :=
  if (patternParts pattern).length = 1 then
    if key = pattern then some [] else none
  else
    (pmatch (piecesOf pattern) key.data).map
      (fun g => g.map (fun nv => (nv.1, String.mk nv.2)))

/-! ## `decode_json_value` (utils.py lines 13–31)

Database values are `None`, `bytes`, or `str`.  `bytes.decode("utf-8")` is
embedded by a strict UTF-8 decoder over byte lists producing code points
(`UnicodeDecodeError` becomes `none`); `json.loads` is external library code
and is taken as a parameter returning `none` on `JSONDecodeError`. -/

/-- A raw value read from the database: Python `None`, `bytes`, or `str`. -/
inductive DBValue : Type where
  | null : DBValue
  | bytes : List Nat → DBValue
  | str : String → DBValue

/-- A UTF-8 continuation byte, `0x80`–`0xBF`. -/
def isContByte (b : Nat) : Bool := 0x80 ≤ b && b ≤ 0xBF

/-- The admissible second byte after a three-byte leader (excludes overlong
encodings and surrogates, as Python's strict decoder does). -/
def cont3ok (b b2 : Nat) : Bool :=
  if b = 0xE0 then 0xA0 ≤ b2 && b2 ≤ 0xBF
  else if b = 0xED then 0x80 ≤ b2 && b2 ≤ 0x9F
  else isContByte b2

/-- The admissible second byte after a four-byte leader (excludes overlong
encodings and code points above `0x10FFFF`). -/
def cont4ok (b b2 : Nat) : Bool :=
  if b = 0xF0 then 0x90 ≤ b2 && b2 ≤ 0xBF
  else if b = 0xF4 then 0x80 ≤ b2 && b2 ≤ 0x8F
  else isContByte b2

/-- Strict UTF-8 decoding of a byte list into code points; `none` models
`UnicodeDecodeError`. -/
def utf8Decode : List Nat → Option (List Nat)
  | [] => some []
  | b :: rest =>
    if b < 0x80 then (utf8Decode rest).map (b :: ·)
    else if 0xC2 ≤ b && b ≤ 0xDF then
      match rest with
      | b2 :: rest2 =>
        if isContByte b2 then
          (utf8Decode rest2).map (((b - 0xC0) * 64 + (b2 - 0x80)) :: ·)
        else none
      | [] => none
    else if 0xE0 ≤ b && b ≤ 0xEF then
      match rest with
      | b2 :: b3 :: rest2 =>
        if cont3ok b b2 && isContByte b3 then
          (utf8Decode rest2).map
            (((b - 0xE0) * 4096 + (b2 - 0x80) * 64 + (b3 - 0x80)) :: ·)
        else none
      | _ => none
    else if 0xF0 ≤ b && b ≤ 0xF4 then
      match rest with
      | b2 :: b3 :: b4 :: rest2 =>
        if cont4ok b b2 && isContByte b3 && isContByte b4 then
          (utf8Decode rest2).map
            (((b - 0xF0) * 262144 + (b2 - 0x80) * 4096 + (b3 - 0x80) * 64
              + (b4 - 0x80)) :: ·)
        else none
      | _ => none
    else none

/-- `decode_json_value` (utils.py 13–31): `None` input yields `None`; bytes
are decoded as UTF-8 then parsed as JSON; strings are parsed as JSON;
`UnicodeDecodeError` and `JSONDecodeError` are caught and yield `None`.
`jsonLoads` is Python's `json.loads` over a decoded code-point sequence. -/
def decode_json_value (jsonLoads : List Nat → Option Json) :
    DBValue → Option Json
  | DBValue.null => none
  | DBValue.bytes b =>
    match utf8Decode b with
    | none => none
    | some cps => jsonLoads cps
  | DBValue.str s => jsonLoads (s.data.map Char.toNat)

/-! ## `parse_cursordiskkv_rows` (utils.py lines 154–218) and the query
filter loops (query.py) -/

/-- One row of the `cursorDiskKV` table. -/
structure KVRow : Type where
  key : String
  value : DBValue

/-- The key parts handed to the factory for one row: the parser's or the
pattern's result, with Python's `if key_parts:` truthiness — a `None` or an
empty dict means the factory is called without key parts. -/
def rowKeyParts (keyParseFn : Option (String → List (String × String)))
    (key_pattern : Option String) (key : String) :
    Option (List (String × String)) :=
  let key_parts : Option (List (String × String)) :=
    match keyParseFn with
    | some f => some (f key)
    | none =>
      match key_pattern with
      | some pat => parse_key_pattern key pat
      | none => none
  match key_parts with
  | some g => if g.isEmpty then none else some g
  | none => none

/-- `parse_cursordiskkv_rows(rows, factory, keyParseFn, key_pattern)`
(utils.py 154–218): decode each row's value (skip on decode failure or
non-object), parse the key when a parser or pattern is supplied, call the
factory with the key parts when they are truthy, and keep the rows whose
factory call returns an instance.  A factory exception (`Except.error`) is
caught and only skips that row. -/
def parse_cursordiskkv_rows {T : Type} (jsonLoads : List Nat → Option Json)
    (rows : List KVRow)
    (factory : List (String × Json) → Option (List (String × String)) →
      Except String (Option T))
    (keyParseFn : Option (String → List (String × String)))
    (key_pattern : Option String) : List T :=
  match rows with
  | [] => []
  | row :: rest =>
    let cont := parse_cursordiskkv_rows jsonLoads rest factory keyParseFn key_pattern
    match decode_json_value jsonLoads row.value with
    | none => cont
    | some data =>
      match data with
      | Json.obj d =>
        match factory d (rowKeyParts keyParseFn key_pattern row.key) with
        | Except.error _ => cont
        | Except.ok none => cont
        | Except.ok (some t) => t :: cont
      | _ => cont

/-- One pass of the filter loop in the `execute` methods (query.py, e.g.
lines 262–266): `[b for b in bubbles if b and filter_func(b)]`, where a
predicate exception aborts the whole comprehension (it is not caught). -/
def listFilterE {T E : Type} (p : T → Except E Bool) : List T → Except E (List T)
  | [] => Except.ok []
  | x :: xs =>
    match p x with
    | Except.error e => Except.error e
    | Except.ok b =>
      match listFilterE p xs with
      | Except.error e => Except.error e
      | Except.ok r => Except.ok (if b then x :: r else r)

/-- The `for filter_func in self._filters:` loop of the `execute` methods:
each accumulated predicate is applied in registration order, and a predicate
exception propagates out of `execute`. -/
def applyFilters {T E : Type} (filters : List (T → Except E Bool))
    (items : List T) : Except E (List T) :=
  match filters with
  | [] => Except.ok items
  | f :: fs =>
    match listFilterE f items with
    | Except.error e => Except.error e
    | Except.ok items' => applyFilters fs items'

/-- `BubbleQuery.execute` (query.py 235–266) after the database returned its
rows: parse the rows with the bubble factory and key pattern, then run the
accumulated filter predicates over the parsed list. -/
def bubbleExecuteOnRows {T : Type} (jsonLoads : List Nat → Option Json)
    (rows : List KVRow)
    (factory : List (String × Json) → Option (List (String × String)) →
      Except String (Option T))
    (filters : List (T → Except String Bool)) : Except String (List T) :=
  applyFilters filters
    (parse_cursordiskkv_rows jsonLoads rows factory none
      (some "bubbleId:\x7bbubble_id\x7d:\x7bconversation_id\x7d"))

/-! ## `Collection.filter` (collections.py lines 46–55) -/

/-- The generic `Collection` wrapper: an ordered list of items. -/
structure Collection (T : Type) : Type where
  items : List T

/-- `Collection.filter` (collections.py 46–55):
`self.__class__([item for item in self._items if predicate(item)])` — a new
collection holding the items satisfying the predicate, in order; the
receiver is not modified. -/
def Collection.filter {T : Type} (c : Collection T) (p : T → Bool) :
    Collection T :=
  ⟨c.items.filter p⟩

/-! ## `TrackingQuery.execute` pagination (query.py lines 392–414) -/

/-- `TrackingQuery.execute` (query.py 392–414): materialise the entries,
apply `offset` (only when positive), apply `limit` (Python `if self._limit:`
— skipped when the limit is `None` or `0`), then run the accumulated filter
predicates. -/
def trackingExecute {T : Type} (entries : List T) (lim : Option Nat)
    (off : Nat) (filters : List (T → Except String Bool)) :
    Except String (Collection T) :=
  let l1 := if off > 0 then entries.drop off else entries
  let l2 := match lim with
    | none => l1
    | some l => if l ≠ 0 then l1.take l else l1
  match applyFilters filters l2 with
  | Except.error e => Except.error e
  | Except.ok r => Except.ok ⟨r⟩

/-! ## Properties of `camel_to_snake` -/

theorem lowerChar_not_upper (c : Char) : isUpperA (lowerChar c) = false := by
  unfold lowerChar
  by_cases h : isUpperA c
  · simp only [h, if_true]
    have hb : 65 ≤ c.toNat ∧ c.toNat ≤ 90 := by
      unfold isUpperA at h
      simp only [Bool.and_eq_true, decide_eq_true_eq] at h
      exact h
    have hv : (c.toNat + 32).isValidChar := by
      unfold Nat.isValidChar
      left
      omega
    have ht : (Char.ofNat (c.toNat + 32)).toNat = c.toNat + 32 := by
      simp only [Char.ofNat, hv, dite_true]
      rfl
    unfold isUpperA
    rw [ht]
    simp only [Bool.and_eq_false_iff, decide_eq_false_iff_not]
    right
    omega
  · simp only [h, if_false]
    simp only [Bool.not_eq_true] at h
    exact h

theorem lowerChar_fix (c : Char) (h : isUpperA c = false) : lowerChar c = c := by
  unfold lowerChar
  simp [h]

theorem subA_no_upper (l : List Char) (h : ∀ c ∈ l, isUpperA c = false) :
    subA l = l := by
  induction l with
  | nil => simp [subA]
  | cons a l ih =>
    match l, ih with
    | [], _ => simp [subA]
    | u :: rest, ih =>
      have hu : isUpperA u = false := h u (by simp)
      have hrec : subA (u :: rest) = u :: rest := ih (fun c hc => h c (by simp [hc]))
      rw [subA, hu]
      simp [hrec]

theorem subB_no_upper (l : List Char) (h : ∀ c ∈ l, isUpperA c = false) :
    subB l = l := by
  induction l with
  | nil => simp [subB]
  | cons a l ih =>
    match l, ih with
    | [], _ => simp [subB]
    | b :: rest, ih =>
      have hb : isUpperA b = false := h b (by simp)
      have hrec : subB (b :: rest) = b :: rest := ih (fun c hc => h c (by simp [hc]))
      rw [subB, hb]
      simp [hrec]

theorem camel_to_snake_no_upper (s : String) :
    ∀ c ∈ (camel_to_snake s).data, isUpperA c = false := by
  intro c hc
  unfold camel_to_snake at hc
  simp only [List.mem_map] at hc
  obtain ⟨c', _, rfl⟩ := hc
  exact lowerChar_not_upper c'

theorem camel_to_snake_of_no_upper (s : String)
    (h : ∀ c ∈ s.data, isUpperA c = false) : camel_to_snake s = s := by
  unfold camel_to_snake
  rw [subA_no_upper _ h, subB_no_upper _ h]
  have : s.data.map lowerChar = s.data := by
    conv_rhs => rw [← List.map_id s.data]
    exact List.map_congr_left (fun c hc => lowerChar_fix c (h c hc))
  rw [this]

theorem not_upper_of_canonical (c : Char)
    (h : isLowerA c = true ∨ isDigitA c = true ∨ c = '_') :
    isUpperA c = false := by
  rcases h with h | h | h
  · unfold isLowerA at h
    unfold isUpperA
    simp only [Bool.and_eq_true, decide_eq_true_eq] at h
    simp only [Bool.and_eq_false_iff, decide_eq_false_iff_not]
    omega
  · unfold isDigitA at h
    unfold isUpperA
    simp only [Bool.and_eq_true, decide_eq_true_eq] at h
    simp only [Bool.and_eq_false_iff, decide_eq_false_iff_not]
    omega
  · subst h
    decide

/-- C7: `camel_to_snake` is idempotent on ASCII alphanumeric strings, is the
identity on already-canonical (lower-case, digit, underscore) strings, and
maps the empty string to the empty string. -/
theorem camel_to_snake_idem :
    (∀ s : String, (∀ c ∈ s.data, isUpperA c = true ∨ isLowerA c = true ∨
        isDigitA c = true) →
      camel_to_snake (camel_to_snake s) = camel_to_snake s)
    ∧ (∀ s : String, (∀ c ∈ s.data, isLowerA c = true ∨ isDigitA c = true ∨
        c = '_') →
      camel_to_snake s = s)
    ∧ camel_to_snake "" = "" := by
  refine ⟨fun s _ => ?_, fun s h => ?_, ?_⟩
  · exact camel_to_snake_of_no_upper _ (camel_to_snake_no_upper s)
  · exact camel_to_snake_of_no_upper s (fun c hc => not_upper_of_canonical c (h c hc))
  · exact camel_to_snake_of_no_upper "" (by simp)

/-- Witness for C7 at the concrete inputs `"bubbleId"` and `"bubble_id"`. -/
theorem camel_to_snake_idem_witness :
    camel_to_snake (camel_to_snake "bubbleId") = camel_to_snake "bubbleId"
    ∧ camel_to_snake "bubble_id" = "bubble_id" :=
  ⟨camel_to_snake_idem.1 "bubbleId" (by decide),
   camel_to_snake_idem.2.1 "bubble_id" (by decide)⟩

/-! ## Properties of the dictionary operations and of `auto_map_camel_to_snake` -/

theorem dictContains_iff_mem {α : Type} (d : List (String × α)) (k : String) :
    dictContains d k = true ↔ k ∈ dictKeys d := by
  induction d with
  | nil => simp [dictContains, dictGet?, dictKeys]
  | cons kv rest ih =>
    obtain ⟨k', v⟩ := kv
    by_cases h : k' = k
    · subst h
      simp [dictContains, dictGet?, dictKeys]
    · simp only [dictContains, dictGet?, if_neg h, dictKeys, List.map_cons,
        List.mem_cons]
      rw [← dictKeys, ← dictContains, ih]
      constructor
      · exact Or.inr
      · rintro (rfl | hm)
        · exact absurd rfl h
        · exact hm

theorem dictContains_insert_self {α : Type} (d : List (String × α)) (k : String)
    (v : α) : dictContains (dictInsert d k v) k = true := by
  induction d with
  | nil => simp [dictInsert, dictContains, dictGet?]
  | cons kv rest ih =>
    obtain ⟨k', v'⟩ := kv
    by_cases h : k' = k
    · subst h
      simp [dictInsert, dictContains, dictGet?]
    · simp only [dictInsert, if_neg h, dictContains, dictGet?, if_neg h]
      exact ih

theorem dictContains_insert_of {α : Type} (d : List (String × α))
    (k k' : String) (v : α) (h : dictContains d k' = true) :
    dictContains (dictInsert d k v) k' = true := by
  induction d with
  | nil => simp [dictContains, dictGet?] at h
  | cons kv rest ih =>
    obtain ⟨k0, v0⟩ := kv
    by_cases hk : k0 = k
    · subst hk
      by_cases hk' : k0 = k'
      · subst hk'
        simp [dictInsert, dictContains, dictGet?]
      · simp only [dictInsert, if_pos rfl, dictContains, dictGet?, if_neg hk']
        simp only [dictContains, dictGet?, if_neg hk'] at h
        exact h
    · by_cases hk' : k0 = k'
      · subst hk'
        simp [dictInsert, if_neg hk, dictContains, dictGet?]
      · simp only [dictInsert, if_neg hk, dictContains, dictGet?, if_neg hk']
        simp only [dictContains, dictGet?, if_neg hk'] at h
        exact ih h

theorem dictGet?_mem {α : Type} (d : List (String × α)) (k : String) (v : α)
    (h : dictGet? d k = some v) : (k, v) ∈ d := by
  induction d with
  | nil => simp [dictGet?] at h
  | cons kv rest ih =>
    obtain ⟨k', v'⟩ := kv
    by_cases hk : k' = k
    · subst hk
      simp [dictGet?] at h
      subst h
      simp
    · simp only [dictGet?, if_neg hk] at h
      simp [ih h]

theorem foldl_preserve_contains {β : Type}
    (step : List (String × Json) → β → List (String × Json))
    (hstep : ∀ m b k, dictContains m k = true → dictContains (step m b) k = true)
    (data : List β) (m : List (String × Json)) (k : String)
    (h : dictContains m k = true) :
    dictContains (data.foldl step m) k = true := by
  induction data generalizing m with
  | nil => exact h
  | cons b rest ih => exact ih (step m b) (hstep m b k h)

theorem foldl_auto_insert_mem (data : List (String × Json))
    (m : List (String × Json)) (k : String) (hk : k ∈ dictKeys data) :
    dictContains
      (data.foldl (fun m kv => dictInsert m (camel_to_snake kv.1) kv.2) m)
      (camel_to_snake k) = true := by
  induction data generalizing m with
  | nil => simp [dictKeys] at hk
  | cons kv rest ih =>
    obtain ⟨k', v'⟩ := kv
    simp only [dictKeys, List.map_cons, List.mem_cons] at hk
    rcases hk with rfl | hk
    · simp only [List.foldl_cons]
      exact foldl_preserve_contains _
        (fun m b k h => dictContains_insert_of _ _ _ _ h) rest _ _
        (dictContains_insert_self m (camel_to_snake k) v')
    · exact ih _ hk

theorem foldl_cond_insert_mem (kf : List (String × String))
    (data : List (String × Json)) (m : List (String × Json)) (k : String)
    (hk : k ∈ dictKeys data) (hnot : dictContains kf k = false) :
    dictContains
      (data.foldl (fun m kv =>
        if dictContains kf kv.1 then m
        else dictInsert m (camel_to_snake kv.1) kv.2) m)
      (camel_to_snake k) = true := by
  have hpres : ∀ (m : List (String × Json)) (b : String × Json) (k : String),
      dictContains m k = true →
      dictContains (if dictContains kf b.1 then m
        else dictInsert m (camel_to_snake b.1) b.2) k = true := by
    intro m b k h
    by_cases hb : dictContains kf b.1 = true
    · rw [if_pos hb]
      exact h
    · rw [if_neg hb]
      exact dictContains_insert_of _ _ _ _ h
  induction data generalizing m with
  | nil => simp [dictKeys] at hk
  | cons kv rest ih =>
    obtain ⟨k', v'⟩ := kv
    simp only [dictKeys, List.map_cons, List.mem_cons] at hk
    rcases hk with rfl | hk
    · have hcond : ¬ (dictContains kf k = true) := by simp [hnot]
      simp only [List.foldl_cons, if_neg hcond]
      exact foldl_preserve_contains _ hpres rest _ _
        (dictContains_insert_self m (camel_to_snake k) v')
    · exact ih _ hk

theorem foldl_known_insert_mem (kf : List (String × String))
    (data : List (String × Json)) (m : List (String × Json))
    (camel snake : String) (hmem : (camel, snake) ∈ kf)
    (hdata : dictContains data camel = true) :
    dictContains
      (kf.foldl (fun m ks =>
        match dictGet? data ks.1 with
        | some v => dictInsert m ks.2 v
        | none => m) m) snake = true := by
  have hpres : ∀ (m : List (String × Json)) (b : String × String) (k : String),
      dictContains m k = true →
      dictContains (match dictGet? data b.1 with
        | some v => dictInsert m b.2 v
        | none => m) k = true := by
    intro m b k h
    cases hg : dictGet? data b.1 with
    | none => simpa using h
    | some v => exact dictContains_insert_of _ _ _ _ h
  induction kf generalizing m with
  | nil => simp at hmem
  | cons ks rest ih =>
    obtain ⟨c', s'⟩ := ks
    simp only [List.mem_cons, Prod.mk.injEq] at hmem
    rcases hmem with ⟨rfl, rfl⟩ | hmem
    · simp only [List.foldl_cons]
      unfold dictContains at hdata
      cases hg : dictGet? data camel with
      | none =>
        rw [hg] at hdata
        simp at hdata
      | some v =>
        simp only [hg]
        exact foldl_preserve_contains _ hpres rest _ _
          (dictContains_insert_self m snake v)
    · exact ih _ hmem

/-- The name under which `auto_map_camel_to_snake` files a given input key:
the `known_fields` target when that table is truthy and lists the key,
`camel_to_snake` of the key otherwise. -/
def translatedKey (known_fields : Option (List (String × String)))
    (k : String) : String :=
  match known_fields with
  | some kf =>
    if kf.isEmpty then camel_to_snake k
    else
      match dictGet? kf k with
      | some s => s
      | none => camel_to_snake k
  | none => camel_to_snake k

/-- C10: the `unknown` component returned by `auto_map_camel_to_snake` is
always the empty mapping, and every key of the input appears
(name-translated) among the keys of the `mapped` component. -/
theorem auto_map_unknown_always_empty :
    (∀ (data : List (String × Json)) (kf : Option (List (String × String))),
      (auto_map_camel_to_snake data kf).2 = [])
    ∧ (∀ (data : List (String × Json)) (kf : Option (List (String × String)))
        (k : String), dictContains data k = true →
        dictContains (auto_map_camel_to_snake data kf).1 (translatedKey kf k)
          = true) := by
  constructor
  · intro data kf
    cases kf with
    | none => simp [auto_map_camel_to_snake]
    | some t =>
      by_cases ht : t.isEmpty = true
      · simp [auto_map_camel_to_snake, ht]
      · simp [auto_map_camel_to_snake, ht]
  · intro data kf k hk
    have hkmem : k ∈ dictKeys data := (dictContains_iff_mem data k).mp hk
    cases kf with
    | none =>
      simp only [auto_map_camel_to_snake, translatedKey]
      exact foldl_auto_insert_mem data [] k hkmem
    | some t =>
      by_cases ht : t.isEmpty = true
      · simp only [auto_map_camel_to_snake, translatedKey, if_pos ht]
        exact foldl_auto_insert_mem data [] k hkmem
      · simp only [auto_map_camel_to_snake, translatedKey, if_neg ht]
        cases hg : dictGet? t k with
        | some s =>
          exact foldl_preserve_contains _
            (by
              intro m b k' h
              by_cases hb : dictContains t b.1 = true
              · rw [if_pos hb]
                exact h
              · rw [if_neg hb]
                exact dictContains_insert_of _ _ _ _ h)
            data _ _
            (foldl_known_insert_mem t data [] k s (dictGet?_mem t k s hg) hk)
        | none =>
          have hnot : dictContains t k = false := by
            unfold dictContains
            rw [hg]
            rfl
          exact foldl_cond_insert_mem t data _ k hkmem hnot

/-- Witness for C10 at the input of the spec scenario. -/
theorem auto_map_unknown_always_empty_witness :
    (auto_map_camel_to_snake [("bubbleId", Json.str "b1"),
      ("unknownField", Json.num 42)] none).2 = []
    ∧ dictContains
        (auto_map_camel_to_snake [("bubbleId", Json.str "b1"),
          ("unknownField", Json.num 42)] none).1
        (translatedKey none "unknownField") = true :=
  ⟨auto_map_unknown_always_empty.1 _ _,
   auto_map_unknown_always_empty.2 _ none "unknownField" (by decide)⟩

/-! ## Concrete values of `camel_to_snake` used by the record factories -/

theorem c2s_bubbleId : camel_to_snake "bubbleId" = "bubble_id" := by
  simp [camel_to_snake, subA, subB, lowerChar, isUpperA, isLowerA, isDigitA]

theorem c2s_unknownField : camel_to_snake "unknownField" = "unknown_field" := by
  simp [camel_to_snake, subA, subB, lowerChar, isUpperA, isLowerA, isDigitA]

/-- C1 counterexample: building a `BubbleConversation` from
`{"bubbleId": "b1", "unknownField": 42}` does not file the unknown key in
the raw bag — the constructor raises `TypeError` because the translated
name `unknown_field` is not a declared field, so no record (and no overflow
mapping `{"unknownField": 42}`) is produced. -/
theorem bubble_from_dict_unknown_key_raises :
    BubbleConversation.from_dict
      [("bubbleId", Json.str "b1"), ("unknownField", Json.num 42)] none none =
    Except.error "TypeError: unexpected keyword argument" := by
  simp [BubbleConversation.from_dict, auto_map_camel_to_snake, c2s_bubbleId,
    c2s_unknownField, dictInsert, dictGet?, dictContains, dictErase, dictKeys,
    dataclassInit, bubbleConversationFields]

/-- C1 (amended): every key of the decoded object is name-translated into
the mapped component and the raw/overflow component returned by
`auto_map_camel_to_snake` is always empty; consequently an input key whose
translated name is not a declared field is not preserved in `_raw_data` but
makes the record constructor raise `TypeError`, while an input with only
known keys yields the modeled field (`bubble_id == "b1"`) and an empty raw
bag. -/
theorem bubble_from_dict_no_overflow :
    auto_map_camel_to_snake
      [("bubbleId", Json.str "b1"), ("unknownField", Json.num 42)] none =
      ([("bubble_id", Json.str "b1"), ("unknown_field", Json.num 42)], [])
    ∧ BubbleConversation.from_dict
        [("bubbleId", Json.str "b1"), ("unknownField", Json.num 42)] none none
        = Except.error "TypeError: unexpected keyword argument"
    ∧ BubbleConversation.from_dict [("bubbleId", Json.str "b1")] none none
        = Except.ok [("bubble_id", Json.str "b1"), ("token_count", Json.obj []),
            ("_raw_data", Json.obj [])] := by
  refine ⟨?_, ?_, ?_⟩
  · simp [auto_map_camel_to_snake, c2s_bubbleId, c2s_unknownField, dictInsert]
  · simp [BubbleConversation.from_dict, auto_map_camel_to_snake, c2s_bubbleId,
      c2s_unknownField, dictInsert, dictGet?, dictContains, dictErase, dictKeys,
      dataclassInit, bubbleConversationFields]
  · simp [BubbleConversation.from_dict, auto_map_camel_to_snake, c2s_bubbleId,
      dictInsert, dictGet?, dictContains, dictErase, dictKeys,
      dataclassInit, bubbleConversationFields]

/-! ## Properties of the key-pattern matcher -/

theorem isPrefixOf_append_self (s t : List Char) : s.isPrefixOf (s ++ t) = true :=
  List.isPrefixOf_iff_prefix.mpr (List.prefix_append s t)

theorem descRange_cons (m lo : Nat) (h : lo ≤ m) :
    ∃ tl, descRange m lo = m :: tl := by
  refine ⟨(List.range (m - lo)).map (fun j => m - (j + 1)), ?_⟩
  unfold descRange
  have hm : m + 1 - lo = (m - lo) + 1 := by omega
  rw [hm, List.range_succ_eq_map]
  simp [Function.comp_def]

theorem takeWhile_ne_colon (p1 rest : List Char) (h : ∀ c ∈ p1, c ≠ ':') :
    (p1 ++ ':' :: rest).takeWhile (· ≠ ':') = p1 := by
  induction p1 with
  | nil => simp
  | cons a p1 ih =>
    have ha : a ≠ ':' := h a (by simp)
    have hrec := ih (fun c hc => h c (by simp [hc]))
    simp [List.takeWhile_cons, ha]
    simpa using hrec

theorem pmatch_nil (input : List Char) : pmatch [] input = some [] := by
  simp only [pmatch]

theorem pmatch_lit (s : List Char) (ps : List Piece) (rest : List Char) :
    pmatch (Piece.lit s :: ps) (s ++ rest) = pmatch ps rest := by
  simp only [pmatch, isPrefixOf_append_self, if_true]
  rw [List.drop_left]

theorem takeWhile_ne_all (x : Char) (l : List Char) (h : ∀ c ∈ l, c ≠ x) :
    l.takeWhile (· ≠ x) = l := by
  induction l with
  | nil => simp
  | cons a l ih =>
    have ha : a ≠ x := h a (by simp)
    have hrec := ih (fun c hc => h c (by simp [hc]))
    simp [List.takeWhile_cons, ha]
    simpa using hrec

theorem pmatch_star_all (n : String) (input : List Char)
    (hn : ∀ c ∈ input, c ≠ '\n') :
    pmatch [Piece.star n] input = some [(n, input)] := by
  simp only [pmatch]
  rw [takeWhile_ne_all '\n' input hn]
  obtain ⟨tl, htl⟩ := descRange_cons input.length 0 (Nat.zero_le _)
  rw [htl, List.findSome?_cons]
  simp [List.take_length]

theorem pmatch_noncolon_exact (n : String) (ps : List Piece)
    (p1 rest : List Char) (h1 : p1 ≠ []) (hc : ∀ c ∈ p1, c ≠ ':')
    (g : List (String × List Char)) (hcont : pmatch ps (':' :: rest) = some g) :
    pmatch (Piece.noncolon n :: ps) (p1 ++ ':' :: rest) =
      some ((n, p1) :: g) := by
  simp only [pmatch]
  rw [takeWhile_ne_colon p1 rest hc]
  obtain ⟨tl, htl⟩ := descRange_cons p1.length 1 (by
    cases p1 with
    | nil => exact absurd rfl h1
    | cons a l => simp)
  rw [htl, List.findSome?_cons]
  have hdrop : (p1 ++ ':' :: rest).drop p1.length = ':' :: rest :=
    List.drop_left p1 _
  have htake : (p1 ++ ':' :: rest).take p1.length = p1 := List.take_left p1 _
  simp [hdrop, htake, hcont]

/-- C2 counterexample: the round-trip property fails for a pattern whose
delimiter is not a colon.  For the pattern `{x}-{y}` the parts `"a:c"` and
`"b"` are non-empty and free of the pattern's literal delimiter `-`, and the
key joining them is `"a:c-b"`, yet `parse_key_pattern` returns `None`
(the non-final placeholder is compiled to `[^:]+`, which cannot match
`"a:c"`), not `{"x": "a:c", "y": "b"}`. -/
theorem parse_key_round_trip_fails_hyphen :
    parse_key_pattern "a:c-b" "\x7bx\x7d-\x7by\x7d" = none := by decide

/-- C2 (amended): the round-trip holds for the SDK's colon-delimited
patterns.  For the two-placeholder pattern
`bubbleId:{bubble_id}:{conversation_id}`, joining any non-empty colon-free
parts with the pattern's literal delimiters and parsing the resulting key
returns exactly those parts keyed by their placeholder names, provided the
final part contains no newline — the final placeholder compiles to `.*`,
which without `re.DOTALL` stops at a newline. -/
theorem parse_key_round_trip (p1 p2 : String)
    (h1 : p1 ≠ "") (hc1 : ∀ c ∈ p1.data, c ≠ ':')
    (_h2 : p2 ≠ "") (_hc2 : ∀ c ∈ p2.data, c ≠ ':')
    (hn2 : ∀ c ∈ p2.data, c ≠ '\n') :
    parse_key_pattern ("bubbleId:" ++ p1 ++ ":" ++ p2)
      "bubbleId:\x7bbubble_id\x7d:\x7bconversation_id\x7d" =
    some [("bubble_id", p1), ("conversation_id", p2)] := by
  have hpieces : piecesOf "bubbleId:\x7bbubble_id\x7d:\x7bconversation_id\x7d" =
      [Piece.lit "bubbleId:".data, Piece.noncolon "bubble_id",
       Piece.lit [':'], Piece.star "conversation_id"] := by decide
  have hlen :
      ¬ ((patternParts "bubbleId:\x7bbubble_id\x7d:\x7bconversation_id\x7d").length
        = 1) := by decide
  have hdata : ("bubbleId:" ++ p1 ++ ":" ++ p2).data =
      "bubbleId:".data ++ (p1.data ++ ':' :: p2.data) := by
    simp [String.data_append]
  have hp1ne : p1.data ≠ [] := by
    intro hnil
    exact h1 (String.ext (by rw [hnil]))
  have h3 : pmatch [Piece.lit [':'], Piece.star "conversation_id"]
      (':' :: p2.data) = some [("conversation_id", p2.data)] := by
    have hsplit : (':' :: p2.data) = [':'] ++ p2.data := rfl
    rw [hsplit, pmatch_lit]
    exact pmatch_star_all _ _ hn2
  unfold parse_key_pattern
  rw [if_neg hlen, hpieces, hdata, pmatch_lit,
    pmatch_noncolon_exact "bubble_id" _ p1.data p2.data hp1ne hc1 _ h3]
  rfl

/-- Witness for C2 at the spec's scenario inputs. -/
theorem parse_key_round_trip_witness :
    parse_key_pattern ("bubbleId:" ++ "abc123" ++ ":" ++ "conv456")
      "bubbleId:\x7bbubble_id\x7d:\x7bconversation_id\x7d" =
    some [("bubble_id", "abc123"), ("conversation_id", "conv456")] :=
  parse_key_round_trip "abc123" "conv456" (by decide) (by decide) (by decide)
    (by decide) (by decide)

/-! ## Declarative semantics of the built regexes (for C3) -/

/-- Declarative matching: `Matches ps used` says the piece list matches
exactly the characters `used` (literal pieces verbatim, a `[^:]+` group a
non-empty colon-free segment, a `.*` group a newline-free segment — the dot
does not match `'\n'` without `re.DOTALL`, while the negated class `[^:]`
does). -/
inductive Matches : List Piece → List Char → Prop where
  | nil : Matches [] []
  | lit (s : List Char) (ps : List Piece) (used : List Char) :
      Matches ps used → Matches (Piece.lit s :: ps) (s ++ used)
  | noncolon (n : String) (ps : List Piece) (seg used : List Char)
      (hne : seg ≠ []) (hnc : ∀ c ∈ seg, c ≠ ':') :
      Matches ps used → Matches (Piece.noncolon n :: ps) (seg ++ used)
  | star (n : String) (ps : List Piece) (seg used : List Char)
      (hnl : ∀ c ∈ seg, c ≠ '\n') :
      Matches ps used → Matches (Piece.star n :: ps) (seg ++ used)

/-- The start-anchored matcher accepts the input when the pieces match some
leading segment of it (Python `re.match`, which ignores trailing input). -/
def MatchesPre (ps : List Piece) (input : List Char) : Prop :=
  ∃ used rest, input = used ++ rest ∧ Matches ps used

theorem mem_descRange (k m lo : Nat) : k ∈ descRange m lo ↔ lo ≤ k ∧ k ≤ m := by
  unfold descRange
  simp only [List.mem_map, List.mem_range]
  constructor
  · rintro ⟨j, hj, rfl⟩
    omega
  · rintro ⟨hlo, hm⟩
    exact ⟨m - k, by omega, by omega⟩

theorem findSome_isSome_of_mem {α β : Type} (l : List α) (f : α → Option β)
    (x : α) (hx : x ∈ l) (hf : (f x).isSome = true) :
    (l.findSome? f).isSome = true := by
  cases h : l.findSome? f with
  | some b => simp
  | none =>
    rw [List.findSome?_eq_none_iff] at h
    rw [h x hx] at hf
    simp at hf

theorem length_le_takeWhile_ne (x : Char) (seg t : List Char)
    (h : ∀ c ∈ seg, c ≠ x) :
    seg.length ≤ ((seg ++ t).takeWhile (· ≠ x)).length := by
  induction seg with
  | nil => simp
  | cons a seg ih =>
    have ha : (decide (a ≠ x)) = true := by simp [h a (by simp)]
    simp only [List.cons_append, List.takeWhile_cons]
    rw [ha]
    simp only [if_true, List.length_cons]
    have := ih (fun c hc => h c (by simp [hc]))
    omega

theorem takeWhile_length_le (p : Char → Bool) (l : List Char) :
    (l.takeWhile p).length ≤ l.length :=
  (List.takeWhile_sublist p).length_le

theorem take_ne (x : Char) (input : List Char) (k : Nat)
    (hk : k ≤ (input.takeWhile (· ≠ x)).length) :
    ∀ c ∈ input.take k, c ≠ x := by
  intro c hc
  have heq : input.take k = (input.takeWhile (· ≠ x)).take k := by
    conv_lhs => rw [← List.takeWhile_append_dropWhile (· ≠ x) input]
    rw [List.take_append_of_le_length hk]
  rw [heq] at hc
  have := List.mem_takeWhile_imp (List.mem_of_mem_take hc)
  simpa using this

theorem pmatch_sound (ps : List Piece) (input : List Char)
    (g : List (String × List Char)) (h : pmatch ps input = some g) :
    MatchesPre ps input := by
  induction ps generalizing input g with
  | nil => exact ⟨[], input, rfl, Matches.nil⟩
  | cons p ps ih =>
    cases p with
    | lit s =>
      simp only [pmatch] at h
      by_cases hpre : s.isPrefixOf input
      · rw [if_pos hpre] at h
        obtain ⟨tail, rfl⟩ := List.isPrefixOf_iff_prefix.mp hpre
        rw [List.drop_left] at h
        obtain ⟨used, rest, rfl, hm⟩ := ih _ _ h
        exact ⟨s ++ used, rest, by rw [List.append_assoc],
          Matches.lit s ps used hm⟩
      · rw [if_neg hpre] at h
        exact absurd h (by simp)
    | noncolon n =>
      simp only [pmatch] at h
      obtain ⟨k, hkmem, hfk⟩ := List.exists_of_findSome?_eq_some h
      obtain ⟨g', hg', _⟩ := Option.map_eq_some'.mp hfk
      obtain ⟨hk1, hkm⟩ := (mem_descRange k _ 1).mp hkmem
      obtain ⟨used, rest, hsplit, hm⟩ := ih _ _ hg'
      have hinput : input = (input.take k ++ used) ++ rest := by
        rw [List.append_assoc]
        conv_lhs => rw [← List.take_append_drop k input]
        rw [hsplit]
      have hlen : (input.take k).length = k := by
        rw [List.length_take]
        have hle : k ≤ input.length :=
          le_trans hkm (takeWhile_length_le _ input)
        omega
      refine ⟨input.take k ++ used, rest, hinput,
        Matches.noncolon n ps _ used ?_ (take_ne ':' input k hkm) hm⟩
      intro hempty
      rw [hempty] at hlen
      simp at hlen
      omega
    | star n =>
      simp only [pmatch] at h
      obtain ⟨k, hkmem, hfk⟩ := List.exists_of_findSome?_eq_some h
      obtain ⟨g', hg', _⟩ := Option.map_eq_some'.mp hfk
      obtain ⟨_, hkm⟩ := (mem_descRange k _ 0).mp hkmem
      obtain ⟨used, rest, hsplit, hm⟩ := ih _ _ hg'
      have hinput : input = (input.take k ++ used) ++ rest := by
        rw [List.append_assoc]
        conv_lhs => rw [← List.take_append_drop k input]
        rw [hsplit]
      exact ⟨input.take k ++ used, rest, hinput,
        Matches.star n ps _ used (take_ne '\n' input k hkm) hm⟩

theorem pmatch_complete (ps : List Piece) (used : List Char)
    (hm : Matches ps used) :
    ∀ rest, (pmatch ps (used ++ rest)).isSome = true := by
  induction hm with
  | nil =>
    intro rest
    simp [pmatch]
  | lit s ps used hm ih =>
    intro rest
    rw [List.append_assoc, pmatch_lit]
    exact ih rest
  | noncolon n ps seg used hne hnc hm ih =>
    intro rest
    rw [List.append_assoc]
    simp only [pmatch]
    have hseg_le : seg.length ≤
        ((seg ++ (used ++ rest)).takeWhile (· ≠ ':')).length :=
      length_le_takeWhile_ne ':' seg _ hnc
    have hseg1 : 1 ≤ seg.length := by
      cases seg with
      | nil => exact absurd rfl hne
      | cons a l => simp
    apply findSome_isSome_of_mem _ _ seg.length
      ((mem_descRange _ _ 1).mpr ⟨hseg1, hseg_le⟩)
    rw [List.drop_left]
    have := ih rest
    cases hp : pmatch ps (used ++ rest) with
    | none => rw [hp] at this; simp at this
    | some g => simp
  | star n ps seg used hnl hm ih =>
    intro rest
    rw [List.append_assoc]
    simp only [pmatch]
    have hseg_le : seg.length ≤
        ((seg ++ (used ++ rest)).takeWhile (· ≠ '\n')).length :=
      length_le_takeWhile_ne '\n' seg _ hnl
    apply findSome_isSome_of_mem _ _ seg.length
      ((mem_descRange _ _ 0).mpr ⟨Nat.zero_le _, hseg_le⟩)
    rw [List.drop_left]
    have := ih rest
    cases hp : pmatch ps (used ++ rest) with
    | none => rw [hp] at this; simp at this
    | some g => simp

/-- C3 counterexample: `re.match` is only start-anchored, so a key that
merely begins with text matching a pattern ending in a literal segment still
yields a parts mapping instead of `None`: the key `a123endZZ` against the
pattern `a{x}end` returns `{"x": "123"}` although the matcher does not
match the entire key. -/
theorem parse_key_not_end_anchored :
    parse_key_pattern "a123endZZ" "a\x7bx\x7dend" = some [("x", "123")] := by
  decide

/-- Fidelity of the final placeholder's `.*` at newlines: the greedy final
group stops at a newline (no `re.DOTALL`), so a key whose last part
contains `'\n'` yields only the text before the newline, and a key whose
newline prevents the trailing literal from being reached does not match. -/
theorem parse_key_star_stops_at_newline :
    parse_key_pattern "bubbleId:abc:co\nnv"
        "bubbleId:\x7bbubble_id\x7d:\x7bconversation_id\x7d" =
      some [("bubble_id", "abc"), ("conversation_id", "co")]
    ∧ parse_key_pattern "a1\n2endZZ" "a\x7bx\x7dend" = none := by
  constructor
  · decide
  · decide

/-- C3 (amended): for a pattern containing at least one placeholder,
`parse_key_pattern` returns `None` exactly when the constructed matcher
matches no leading segment of the key — full-match failure alone does not
force `None`, only the absence of any start-anchored match does. -/
theorem parse_key_none_iff (key pattern : String)
    (h : 2 ≤ (patternParts pattern).length) :
    parse_key_pattern key pattern = none ↔
      ¬ MatchesPre (piecesOf pattern) key.data := by
  unfold parse_key_pattern
  rw [if_neg (by omega)]
  constructor
  · intro hnone hpre
    obtain ⟨used, rest, hsplit, hm⟩ := hpre
    rw [Option.map_eq_none'] at hnone
    have := pmatch_complete _ _ hm rest
    rw [← hsplit, hnone] at this
    simp at this
  · intro hnpre
    cases hp : pmatch (piecesOf pattern) key.data with
    | none => simp [hp]
    | some g => exact absurd (pmatch_sound _ _ g hp) hnpre

/-- Witness for C3: the pattern `a{x}` has a placeholder, and the key `zzz`
(which the matcher cannot match at the start) parses to `None`, so no
leading segment of `zzz` matches the built regex. -/
theorem parse_key_none_iff_witness :
    ¬ MatchesPre (piecesOf "a\x7bx\x7d") "zzz".data :=
  (parse_key_none_iff "zzz" "a\x7bx\x7d" (by decide)).mp (by decide)

/-! ## Pagination (C4), decoder totality (C5), collection purity (C8) -/

/-- C4 counterexample: `limit(0)` does not return 0 items.  Python
`if self._limit:` is false for `0`, so the limit is skipped and the whole
dataset is returned: on a one-element dataset with `limit(0).offset(0)` the
query yields 1 item, not `max(0, min(0, 1-0)) = 0`. -/
theorem tracking_limit_zero_returns_all :
    trackingExecute [(42 : Nat)] (some 0) 0 [] = Except.ok ⟨[42]⟩
    ∧ (Collection.mk [(42 : Nat)]).items.length ≠ 0 :=
  ⟨rfl, by decide⟩

theorem offset_guard_eq_drop {T : Type} (items : List T) (O : Nat) :
    (if O > 0 then items.drop O else items) = items.drop O := by
  cases O with
  | zero => simp
  | succ n => simp

/-- C4 (amended): with no predicates set, `TrackingQuery.execute` with
`limit(L)` and `offset(O)` returns the contiguous slice
`items[O:][:L]` — `max(0, min(L, N-O))` items in original relative order —
for every `L ≥ 1`; `limit(0)` (like an unset limit) is treated as *no
limit* and returns the `max(0, N-O)` items after the offset. -/
theorem tracking_pagination (T : Type) (items : List T) (L O : Nat)
    (hL : 1 ≤ L) :
    trackingExecute items (some L) O [] = Except.ok ⟨(items.drop O).take L⟩
    ∧ ((items.drop O).take L).length = min L (items.length - O)
    ∧ ((items.drop O).take L).Sublist items
    ∧ trackingExecute items (some 0) O [] = Except.ok ⟨items.drop O⟩
    ∧ trackingExecute items none O [] = Except.ok ⟨items.drop O⟩ := by
  refine ⟨?_, ?_, ?_, ?_, ?_⟩
  · unfold trackingExecute
    rw [offset_guard_eq_drop]
    have hne : L ≠ 0 := by omega
    simp [hne, applyFilters]
  · rw [List.length_take, List.length_drop]
  · exact (List.take_sublist _ _).trans (List.drop_sublist _ _)
  · unfold trackingExecute
    rw [offset_guard_eq_drop]
    simp [applyFilters]
  · unfold trackingExecute
    rw [offset_guard_eq_drop]
    simp [applyFilters]

/-- Witness for C4 at a concrete dataset of size 5 with `limit(2).offset(1)`. -/
theorem tracking_pagination_witness :
    trackingExecute [1, 2, 3, 4, 5] (some 2) 1 [] =
      Except.ok ⟨([1, 2, 3, 4, 5].drop 1).take 2⟩ :=
  (tracking_pagination Nat [1, 2, 3, 4, 5] 2 1 (by decide)).1

/-- C5: `decode_json_value` is a total function returning an optional JSON
value: `None` input yields `None`; bytes that fail strict UTF-8 decoding
yield `None` (the `UnicodeDecodeError` is caught); decodable bytes and
strings are handed to `json.loads`, whose `JSONDecodeError` is likewise
caught as `None` and whose successful parse is returned as-is; and the
byte `0xFF` is undecodable. -/
theorem decode_json_value_total :
    (∀ jl : List Nat → Option Json, decode_json_value jl DBValue.null = none)
    ∧ (∀ (jl : List Nat → Option Json) b, utf8Decode b = none →
        decode_json_value jl (DBValue.bytes b) = none)
    ∧ (∀ (jl : List Nat → Option Json) b cps, utf8Decode b = some cps →
        decode_json_value jl (DBValue.bytes b) = jl cps)
    ∧ (∀ (jl : List Nat → Option Json) s,
        decode_json_value jl (DBValue.str s) = jl (s.data.map Char.toNat))
    ∧ utf8Decode [0xFF] = none := by
  refine ⟨fun jl => rfl, fun jl b hb => ?_, fun jl b cps hb => ?_,
    fun jl s => rfl, by decide⟩
  · simp [decode_json_value, hb]
  · simp [decode_json_value, hb]

/-- Witness for C5: invalid UTF-8 bytes decode to `None` even when the JSON
parser would accept anything. -/
theorem decode_json_value_total_witness :
    decode_json_value (fun _ => some Json.null) (DBValue.bytes [0xFF]) = none :=
  decode_json_value_total.2.1 _ [0xFF] (by decide)

/-- C8: `Collection.filter` is pure: the returned collection holds exactly
the items of the receiver satisfying the predicate, as an order-preserving
subsequence of the receiver's items, and the receiver's item list is left
untouched (the source builds a new list without assigning to `self._items`;
in this pure embedding the receiver is a value and cannot change). -/
theorem collection_filter_pure (T : Type) (c : Collection T) (p : T → Bool) :
    (c.filter p).items = c.items.filter p
    ∧ ((c.filter p).items).Sublist c.items
    ∧ ∀ x, x ∈ (c.filter p).items ↔ x ∈ c.items ∧ p x = true := by
  refine ⟨rfl, List.filter_sublist _, fun x => ?_⟩
  simp [Collection.filter, List.mem_filter]

/-! ## Error handling in batch row parsing and in the filter loops (C6) -/

theorem parse_rows_append {T : Type} (jl : List Nat → Option Json)
    (xs ys : List KVRow)
    (factory : List (String × Json) → Option (List (String × String)) →
      Except String (Option T))
    (kparser : Option (String → List (String × String)))
    (kpat : Option String) :
    parse_cursordiskkv_rows jl (xs ++ ys) factory kparser kpat =
      parse_cursordiskkv_rows jl xs factory kparser kpat
        ++ parse_cursordiskkv_rows jl ys factory kparser kpat := by
  induction xs with
  | nil => simp [parse_cursordiskkv_rows]
  | cons r xs ih =>
    simp only [List.cons_append, parse_cursordiskkv_rows]
    cases hd : decode_json_value jl r.value with
    | none => simpa [hd] using ih
    | some data =>
      cases data with
      | obj d =>
        simp only [hd]
        cases hf : factory d (rowKeyParts kparser kpat r.key) with
        | error e => simp [hf, ih]
        | ok o =>
          cases o with
          | none => simp [hf, ih]
          | some t => simp [hf, ih]
      | null => simpa [hd] using ih
      | bool b => simpa [hd] using ih
      | num n => simpa [hd] using ih
      | str s => simpa [hd] using ih
      | arr l => simpa [hd] using ih

theorem parse_rows_error_row_skipped {T : Type} (jl : List Nat → Option Json)
    (row : KVRow) (d : List (String × Json))
    (factory : List (String × Json) → Option (List (String × String)) →
      Except String (Option T))
    (kparser : Option (String → List (String × String)))
    (kpat : Option String) (e : String)
    (hdec : decode_json_value jl row.value = some (Json.obj d))
    (hfac : ∀ kp, factory d kp = Except.error e) :
    parse_cursordiskkv_rows jl [row] factory kparser kpat = [] := by
  simp [parse_cursordiskkv_rows, hdec, hfac]

theorem listFilterE_error {T : Type} (p : T → Except String Bool)
    (items : List T) (x : T) (e : String) (hx : x ∈ items)
    (hp : p x = Except.error e) :
    ∃ e', listFilterE p items = Except.error e' := by
  induction items with
  | nil => simp at hx
  | cons y ys ih =>
    cases hpy : p y with
    | error e0 => exact ⟨e0, by simp [listFilterE, hpy]⟩
    | ok b =>
      rcases List.mem_cons.mp hx with rfl | hx'
      · rw [hpy] at hp
        exact absurd hp (by simp)
      · obtain ⟨e', he'⟩ := ih hx'
        exact ⟨e', by simp [listFilterE, hpy, he']⟩

/-- C6: during batch row parsing, a factory exception on one row is caught
and skips exactly that row — the rows before and after it are still parsed
and returned — whereas an exception raised by a caller-supplied filter
predicate is not caught and aborts the whole `execute()` call. -/
theorem factory_error_skips_row_predicate_error_aborts :
    (∀ (T : Type) (jl : List Nat → Option Json) (pre post : List KVRow)
        (row : KVRow) (d : List (String × Json))
        (factory : List (String × Json) → Option (List (String × String)) →
          Except String (Option T))
        (kparser : Option (String → List (String × String)))
        (kpat : Option String) (e : String),
      decode_json_value jl row.value = some (Json.obj d) →
      (∀ kp, factory d kp = Except.error e) →
      parse_cursordiskkv_rows jl (pre ++ row :: post) factory kparser kpat =
        parse_cursordiskkv_rows jl pre factory kparser kpat
          ++ parse_cursordiskkv_rows jl post factory kparser kpat)
    ∧ (∀ (T : Type) (jl : List Nat → Option Json) (rows : List KVRow)
        (factory : List (String × Json) → Option (List (String × String)) →
          Except String (Option T))
        (p : T → Except String Bool) (fs : List (T → Except String Bool))
        (x : T) (e : String),
      x ∈ parse_cursordiskkv_rows jl rows factory none
        (some "bubbleId:\x7bbubble_id\x7d:\x7bconversation_id\x7d") →
      p x = Except.error e →
      ∃ e', bubbleExecuteOnRows jl rows factory (p :: fs) =
        Except.error e') := by
  constructor
  · intro T jl pre post row d factory kparser kpat e hdec hfac
    rw [parse_rows_append]
    congr 1
    simp [parse_cursordiskkv_rows, hdec, hfac]
  · intro T jl rows factory p fs x e hx hp
    obtain ⟨e', he'⟩ := listFilterE_error p _ x e hx hp
    exact ⟨e', by simp [bubbleExecuteOnRows, applyFilters, he']⟩

/-- Witness for C6: a factory that always raises yields an empty batch
(the single bad row is skipped), and a predicate that raises aborts the
bubble execution with an error. -/
theorem factory_error_skips_row_predicate_error_aborts_witness :
    parse_cursordiskkv_rows (fun _ => some (Json.obj []))
      [⟨"k", DBValue.str "x"⟩]
      (fun _ _ => (Except.error "boom" : Except String (Option Nat)))
      none none = []
    ∧ ∃ e', bubbleExecuteOnRows (fun _ => some (Json.obj []))
        [⟨"k", DBValue.str "x"⟩]
        (fun _ _ => (Except.ok (some (7 : Nat)) : Except String (Option Nat)))
        [fun _ => Except.error "bad"] = Except.error e' := by
  constructor
  · have := factory_error_skips_row_predicate_error_aborts.1 Nat
      (fun _ => some (Json.obj [])) [] [] ⟨"k", DBValue.str "x"⟩ []
      (fun _ _ => Except.error "boom") none none "boom" rfl (fun _ => rfl)
    simpa using this
  · exact factory_error_skips_row_predicate_error_aborts.2 Nat
      (fun _ => some (Json.obj [])) [⟨"k", DBValue.str "x"⟩]
      (fun _ _ => Except.ok (some 7)) (fun _ => Except.error "bad") [] 7 "bad"
      (by decide) rfl

/-! ## Mandatory and optional fields in record construction (C9) -/

theorem mem_dictKeys_insert {α : Type} (d : List (String × α))
    (k k' : String) (v : α) (h : k' ∈ dictKeys (dictInsert d k v)) :
    k' = k ∨ k' ∈ dictKeys d := by
  induction d with
  | nil =>
    simp [dictInsert, dictKeys] at h
    exact Or.inl h
  | cons kv rest ih =>
    obtain ⟨k0, v0⟩ := kv
    by_cases hk : k0 = k
    · subst hk
      have hins : dictInsert ((k0, v0) :: rest) k0 v = (k0, v) :: rest := by
        simp [dictInsert]
      rw [hins] at h
      simp only [dictKeys, List.map_cons, List.mem_cons] at h ⊢
      rcases h with rfl | h
      · exact Or.inl rfl
      · exact Or.inr (Or.inr h)
    · simp only [dictInsert, if_neg hk, dictKeys, List.map_cons,
        List.mem_cons] at h ⊢
      rcases h with rfl | h
      · exact Or.inr (Or.inl rfl)
      · rcases ih h with rfl | h2
        · exact Or.inl rfl
        · exact Or.inr (Or.inr h2)

theorem foldl_auto_insert_keys (data : List (String × Json))
    (m : List (String × Json)) (k' : String)
    (h : k' ∈ dictKeys
      (data.foldl (fun m kv => dictInsert m (camel_to_snake kv.1) kv.2) m)) :
    k' ∈ dictKeys m ∨ ∃ kv ∈ data, k' = camel_to_snake kv.1 := by
  induction data generalizing m with
  | nil => exact Or.inl h
  | cons kv rest ih =>
    simp only [List.foldl_cons] at h
    rcases ih _ h with hin | ⟨kv', hkv', rfl⟩
    · rcases mem_dictKeys_insert _ _ _ _ hin with rfl | hm
      · exact Or.inr ⟨kv, by simp, rfl⟩
      · exact Or.inl hm
    · exact Or.inr ⟨kv', by simp [hkv'], rfl⟩

theorem c2s_files : camel_to_snake "files" = "files" := by
  simp [camel_to_snake, subA, subB, lowerChar, isUpperA, isLowerA, isDigitA]

theorem c2s_nonExistentFiles :
    camel_to_snake "nonExistentFiles" = "non_existent_files" := by
  simp [camel_to_snake, subA, subB, lowerChar, isUpperA, isLowerA, isDigitA]

theorem c2s_newlyCreatedFolders :
    camel_to_snake "newlyCreatedFolders" = "newly_created_folders" := by
  simp [camel_to_snake, subA, subB, lowerChar, isUpperA, isLowerA, isDigitA]

theorem c2s_activeInlineDiffs :
    camel_to_snake "activeInlineDiffs" = "active_inline_diffs" := by
  simp [camel_to_snake, subA, subB, lowerChar, isUpperA, isLowerA, isDigitA]

theorem c2s_inlineDiffNewlyCreatedResources :
    camel_to_snake "inlineDiffNewlyCreatedResources"
      = "inline_diff_newly_created_resources" := by
  simp [camel_to_snake, subA, subB, lowerChar, isUpperA, isLowerA, isDigitA]

/-- C9: `AICodeTrackingEntry.from_dict` raises `KeyError` exactly when the
mandatory `"hash"` key is absent, succeeds (with `metadata` defaulting to
`{}`) whenever it is present; and `Checkpoint.from_dict` never fails for
payloads using any subset of its known camel-case keys — every modeled
field has a default, so missing optional fields cannot make construction
fail. -/
theorem record_construction_mandatory_hash :
    (∀ d : List (String × Json), dictContains d "hash" = false →
      AICodeTrackingEntry.from_dict d = Except.error "KeyError: hash")
    ∧ (∀ (d : List (String × Json)) (h : Json), dictGet? d "hash" = some h →
      AICodeTrackingEntry.from_dict d =
        Except.ok ⟨h, (dictGet? d "metadata").getD (Json.obj [])⟩)
    ∧ AICodeTrackingEntry.from_dict [("hash", Json.str "h1")] =
        Except.ok ⟨Json.str "h1", Json.obj []⟩
    ∧ AICodeTrackingEntry.from_dict
        [("hash", Json.str "h1"),
         ("metadata", Json.obj [("source", Json.str "composer")])] =
        Except.ok ⟨Json.str "h1", Json.obj [("source", Json.str "composer")]⟩
    ∧ (∀ data : List (String × Json),
        (∀ kv ∈ data, kv.1 ∈ (["files", "nonExistentFiles",
          "newlyCreatedFolders", "activeInlineDiffs",
          "inlineDiffNewlyCreatedResources"] : List String)) →
        ∃ r, Checkpoint.from_dict data = Except.ok r) := by
  refine ⟨?_, ?_, rfl, rfl, ?_⟩
  · intro d hd
    unfold dictContains at hd
    cases hg : dictGet? d "hash" with
    | none => simp [AICodeTrackingEntry.from_dict, hg]
    | some h =>
      rw [hg] at hd
      simp at hd
  · intro d h hg
    simp [AICodeTrackingEntry.from_dict, hg]
  · intro data h
    unfold Checkpoint.from_dict dataclassInit
    have hall : (dictKeys (dictInsert (auto_map_camel_to_snake data none).1
        "_raw_data" (Json.obj (auto_map_camel_to_snake data none).2))).all
        (checkpointFields.contains ·) = true := by
      rw [List.all_eq_true]
      intro k hk
      rcases mem_dictKeys_insert _ _ _ _ hk with rfl | hk2
      · decide
      · have hk3 : k ∈ dictKeys ((auto_map_camel_to_snake data none).1) := hk2
        rw [show (auto_map_camel_to_snake data none).1 =
            data.foldl (fun m kv => dictInsert m (camel_to_snake kv.1) kv.2) []
          from rfl] at hk3
        rcases foldl_auto_insert_keys data [] k hk3 with hin | ⟨kv, hkv, rfl⟩
        · simp [dictKeys] at hin
        · have hmem := h kv hkv
          simp only [List.mem_cons, List.not_mem_nil, or_false] at hmem
          rcases hmem with h1 | h1 | h1 | h1 | h1 <;> rw [h1]
          · rw [c2s_files]
            decide
          · rw [c2s_nonExistentFiles]
            decide
          · rw [c2s_newlyCreatedFolders]
            decide
          · rw [c2s_activeInlineDiffs]
            decide
          · rw [c2s_inlineDiffNewlyCreatedResources]
            decide
    rw [if_pos hall]
    exact ⟨_, rfl⟩

/-- Witness for C9: a dict without `"hash"` raises, one with `"hash"`
constructs, and an all-defaults checkpoint payload constructs. -/
theorem record_construction_mandatory_hash_witness :
    AICodeTrackingEntry.from_dict [("metadata", Json.obj [])] =
      Except.error "KeyError: hash"
    ∧ AICodeTrackingEntry.from_dict [("hash", Json.num 5)] =
        Except.ok ⟨Json.num 5, Json.obj []⟩
    ∧ ∃ r, Checkpoint.from_dict [("files", Json.obj [])] = Except.ok r :=
  ⟨record_construction_mandatory_hash.1 _ (by decide),
   record_construction_mandatory_hash.2.1 _ (Json.num 5) (by
    unfold dictGet?
    simp),
   record_construction_mandatory_hash.2.2.2.2 _ (by decide)⟩
